import Mathlib

/-! # Rocket.Chat.ReactNative: settings sync and room sagas

A shallow embedding of `app/lib/methods/getSettings.js` and `app/sagas/rooms.js`.

* The Realm collections are lists of records; a write transaction is a total
  function on them.
* A remote call is represented by its outcome (`Except`), supplied by the caller
  of the embedded routine.
* A generator routine is embedded by the sequence of side effects it performs,
  in source order.
* Time is a natural number of milliseconds; a dispatched typing signal carries
  the time of its dispatch.
-/

namespace RocketChat

/-- A JavaScript `Date`: milliseconds relative to the epoch. -/
abbrev Date := Int

/-! ## `app/lib/methods/getSettings.js` -/

namespace Settings

/-- A record of the `settings` collection. `value` stands for every property
copied by the spread `...setting`; `_updatedAt` is optional in the store. -/
structure SettingRecord (V : Type) where
  _id : String
  value : V
  _updatedAt : Option Date
deriving DecidableEq

/-- A setting in local shape, as returned by `_prepareSettings`. -/
structure Setting (V : Type) where
  _id : String
  value : V
deriving DecidableEq

/-- What `ddp.call` resolves with: a plain array of raw settings, or an
envelope whose `update` property holds the array (`result.update || result`). -/
inductive PullResult (Raw : Type) where
  | records (l : List Raw)
  | envelope (update : List Raw)


/-- One invocation of `this.ddp.call(method, ...args)`. -/
structure RemoteCall where
  method : String
  args : List Date
deriving DecidableEq

/-- The members of `this` used by the routine whose code is outside this file:
`_filterSettings`, `_prepareSettings` and `parseSettings`. The parsed form is
a JavaScript object, kept as its list of (key, value) entries. -/
structure Helpers (Raw V P : Type) where
  _filterSettings : List Raw → List Raw
  _prepareSettings : List Raw → List (Setting V)
  parseSettings : List (Setting V) → List (String × P)

/-- Order of `_updatedAt` used by the store when sorting: a missing date sorts
below every date. -/
def dateLe : Option Date → Option Date → Bool
  | none, _ => true
  | some _, none => false
  | some a, some b => decide (a ≤ b)

/-- `database.objects('settings').sorted('_updatedAt', true)`: the records in
descending order of `_updatedAt`. -/
def sortedDesc {V : Type} (db : List (SettingRecord V)) : List (SettingRecord V) :=
  db.insertionSort (fun a b => dateLe b._updatedAt a._updatedAt = true)

/-- `getLastUpdate` (lines 9-12): `const [setting] = ...sorted(...)` takes the
first record if any; `setting && setting._updatedAt`. -/
def getLastUpdate {V : Type} (db : List (SettingRecord V)) : Option Date :=
  match sortedDesc db with
  | [] => none
  | setting :: _ => setting._updatedAt

/-- The remote call of line 17. A `Date` object is truthy whatever its time
value, so `!lastUpdate` holds exactly when there is no date;
`new Date(lastUpdate)` has the time value of `lastUpdate`. -/
def pullCall (lastUpdate : Option Date) : RemoteCall :=
  match lastUpdate with
  | none => { method := "public-settings/get", args := [] }
  | some d => { method := "public-settings/get", args := [d] }

/-- `database.create('settings', r, true)`: update the record with the same
primary key `_id` if there is one, otherwise add `r`. -/
def create {V : Type} (db : List (SettingRecord V)) (r : SettingRecord V) :
    List (SettingRecord V) :=
  if db.any (fun x => x._id == r._id) then
    db.map (fun x => if x._id == r._id then r else x)
  else db ++ [r]

/-- The write transaction of lines 22-24: `filteredSettings.forEach` creating
`{ ...setting, _updatedAt: new Date() }`; `clock i` is the value of the
`new Date()` evaluated for the element of index `i`. -/
def writeSettings {V : Type} (clock : Nat → Date) :
    Nat → List (Setting V) → List (SettingRecord V) → List (SettingRecord V)
  | _, [], db => db
  | i, s :: rest, db =>
    writeSettings clock (i + 1) rest
      (create db { _id := s._id, value := s.value, _updatedAt := some (clock i) })

/-- Assignment `obj[k] = v` on an object kept as its list of entries. -/
def objSet {P : Type} (obj : List (String × P)) (kv : String × P) : List (String × P) :=
  if obj.any (fun x => x.1 == kv.1) then
    obj.map (fun x => if x.1 == kv.1 then kv else x)
  else obj ++ [kv]

/-- Modelled from the spec: the reducer reached by
`reduxStore.dispatch(actions.addSettings(payload))` is not among the sources.
The spec has the parsed set published "into process-wide state as one atomic
update" of the "current Settings mapping", in which "duplicate keys overwrite,
not duplicate": every entry of the payload is assigned onto the state. -/
def addSettings {P : Type} (state payload : List (String × P)) : List (String × P) :=
  payload.foldl objSet state

/-- What one run of the routine leaves behind. -/
structure Run (V P : Type) where
  calls : List RemoteCall
  store : List (SettingRecord V)
  published : List (String × P)
  logged : Bool

/-- The array handed to `_filterSettings` at line 19: `result.update || result`. -/
def PullResult.settings {Raw : Type} : PullResult Raw → List Raw
  | .records l => l
  | .envelope update => update

/-- The `filteredSettings` of line 19. -/
def filteredSettings {Raw V P : Type} (h : Helpers Raw V P) (result : PullResult Raw) :
    List (Setting V) :=
  h._prepareSettings (h._filterSettings result.settings)

/-- The default export (lines 14-29). `response` is the outcome of the awaited
`ddp.call`; a rejection (with the error it carries) is caught and logged. The
deferred write of lines 21-24 and the dispatch of line 25 are both carried
out. -/
def getSettings {Raw V P : Type} (h : Helpers Raw V P) (clock : Nat → Date)
    (response : Except String (PullResult Raw))
    (db : List (SettingRecord V)) (state : List (String × P)) : Run V P :=
  let lastUpdate := getLastUpdate db
  let call := pullCall lastUpdate
  match response with
  | .error _ => { calls := [call], store := db, published := state, logged := true }
  | .ok result =>
    { calls := [call]
      store := writeSettings clock 0 (filteredSettings h result) db
      published := addSettings state (h.parseSettings (filteredSettings h result))
      logged := false }

/-- Two runs in succession that receive the same remote result. -/
def getSettingsTwice {Raw V P : Type} (h : Helpers Raw V P) (clock₁ clock₂ : Nat → Date)
    (result : PullResult Raw) (db : List (SettingRecord V)) (state : List (String × P)) :
    Run V P :=
  getSettings h clock₂ (.ok result) (getSettings h clock₁ (.ok result) db state).store
    (getSettings h clock₁ (.ok result) db state).published

/-- The entry of a setting in the key-to-value mapping. -/
def Setting.entry {V : Type} (s : Setting V) : String × V := (s._id, s.value)

/-- A sample client for concrete runs: a raw setting is a key, whether the
client supports it, and a value; unsupported settings are filtered out. -/
def sampleHelpers : Helpers (String × Bool × Nat) Nat Nat :=
  { _filterSettings := fun l => l.filter (fun r => r.2.1)
    _prepareSettings := fun l => l.map (fun r => { _id := r.1, value := r.2.2 })
    parseSettings := fun l => l.foldl (fun o s => objSet o s.entry) [] }

/-- The key-to-value mapping held by the store: its records without their
`_updatedAt`. -/
def mapping {V : Type} (db : List (SettingRecord V)) : List (String × V) :=
  db.map (fun r => (r._id, r.value))

/-- The value last given to key `k` in a list of entries. -/
def lastVal {P : Type} (k : String) : List (String × P) → Option P
  | [] => none
  | x :: xs =>
    match lastVal k xs with
    | some v => some v
    | none => if x.1 == k then some x.2 else none

/-- An entry overridden by the value last given to its key. -/
def override {P : Type} (F : List (String × P)) (e : String × P) : String × P :=
  match lastVal e.1 F with
  | some v => (e.1, v)
  | none => e

end Settings

/-! ## `app/sagas/rooms.js` -/

namespace Rooms

/-- A room descriptor; only `rid` is read by the sagas. -/
structure Room where
  rid : String
deriving DecidableEq

/-- A record of the `messages` collection (primary key `_id`). -/
structure Message where
  _id : String
  rid : String
  msg : String
deriving DecidableEq

/-- A record of the `subscriptions` collection. -/
structure Subscription where
  _id : String
  rid : String
  name : String
deriving DecidableEq

/-- The two collections of the local store touched by the sagas. -/
structure Db where
  messages : List Message
  subscriptions : List Subscription
deriving DecidableEq

/-- Payload of a `ROOM.SOMEONE_TYPING` action. -/
structure Typing where
  _rid : String
  username : String
  typing : Bool
deriving DecidableEq

/-- An object a rejected remote call is caught with; its `error` property may
be absent. A rejection value that is no object (`undefined`, `null`) is the
`none` of an `Option RemoteError`. -/
structure RemoteError where
  error : Option String
deriving DecidableEq

/-- Identity of the object returned by `RocketChat.subscribeRoom`. -/
abbrev Handle := Nat

/-- Redux actions put by the sagas. -/
inductive Action where
  | addUserTyping (username : String)
  | removeUserTyping (username : String)
  | messagesRequest (room : Room)
  | editCancel
  | setLastOpen
deriving DecidableEq

/-- Store operations inside one `database.write`. -/
inductive DbOp where
  | createMessage (m : Message)
  | deleteMessages (rid : String)
  | deleteSubscriptions (rid : String)
deriving DecidableEq

/-- Side effects performed by the room routines, as observed from outside. -/
inductive Effect where
  | put (a : Action)
  | readMessages (rid : String)
  | subscribeRoom (room : Room)
  | stop (h : Handle)
  | forkUsersTyping (task : Nat) (rid : String)
  | cancelWatchRoomOpen (room : Room)
  | cancelUsersTyping (task : Nat)
  | emitTyping (rid : String) (status : Bool)
  | leaveRoom (rid : String)
  | eraseRoom (rid : String)
  | popToRoot
  | delay (ms : Nat)
  | write (ops : List DbOp)
  | alert (message : String)
  | log (tag : String)
  | warn (tag : String)
  | uncaught (error : String)
deriving DecidableEq

/-- Whether an effect is a `database.write` transaction. -/
def Effect.isWrite : Effect → Bool
  | .write _ => true
  | _ => false

/-- Whether an effect is an `Alert.alert` notice. -/
def Effect.isAlert : Effect → Bool
  | .alert _ => true
  | _ => false

/-- Whether an effect is a `log` entry. -/
def Effect.isLog : Effect → Bool
  | .log _ => true
  | _ => false

/-! ### Typing watcher (lines 34-56) -/

/-- `cancelTyping(username)` (lines 34-44), started at time `start`, run
against the `SOMEONE_TYPING` actions dispatched after its start, in dispatch
order with their times. Every pass of the loop races the next action against a
new `delay(5000)`; an action dispatched at or after the deadline loses to the
timer. The result is the `put` of line 41 and its time. -/
def cancelTyping (username : String) (start : Nat) : List (Nat × Typing) → Nat × Action
  | [] => (start + 5000, .removeUserTyping username)
  | (t, typing) :: rest =>
    if start + 5000 ≤ t then (start + 5000, .removeUserTyping username)
    else if typing.username == username && !typing.typing then
      (t, .removeUserTyping username)
    else cancelTyping username t rest

/-- `usersTyping({ rid })` (lines 46-56) run against the dispatched
`SOMEONE_TYPING` actions: the puts of the watcher and of every `cancelTyping`
it forks, each with its time. The put of a forked task is listed right after
the fork, so the list is grouped by signal and not sorted by time. -/
def usersTyping (rid : String) : List (Nat × Typing) → List (Nat × Action)
  | [] => []
  | (t, s) :: rest =>
    if s._rid == rid then
      ((t, if s.typing then Action.addUserTyping s.username
           else Action.removeUserTyping s.username)
        :: (if s.typing then [cancelTyping s.username t rest] else []))
        ++ usersTyping rid rest
    else usersTyping rid rest

/-! ### Inbound message (lines 57-71) -/

/-- `database.create('messages', message, true)`. -/
def createMessage (db : Db) (m : Message) : Db :=
  { db with
    messages :=
      if db.messages.any (fun x => x._id == m._id) then
        db.messages.map (fun x => if x._id == m._id then m else x)
      else db.messages ++ [m] }

/-- `handleMessageReceived({ message })`; `room` is `state.room`. Reading
`room.rid` of an absent room throws, which the routine catches. -/
def handleMessageReceived (room : Option Room) (message : Message) (db : Db) :
    List Effect × Db :=
  match room with
  | none => ([.warn "handleMessageReceived"], db)
  | some room =>
    if message.rid == room.rid then
      ([.write [.createMessage message], .readMessages room.rid], createMessage db message)
    else ([], db)

/-! ### Self typing (lines 105-127) -/

/-- `watchuserTyping({ status })` run without being cancelled.
`loginSuccess` tells whether a `LOGIN.SUCCESS` is dispatched while the routine
waits for one; `room` is `state.room` at line 111; `first` and `second` are the
outcomes of the two `emitTyping` calls. -/
def watchuserTyping (status : Bool) (isAuthenticated loginSuccess : Bool)
    (room : Option Room) (first second : Except RemoteError Unit) : List Effect :=
  if !isAuthenticated && !loginSuccess then []
  else
    match room with
    | none => []
    | some room =>
      match first with
      | .error _ => [.emitTyping room.rid status, .log "watchuserTyping"]
      | .ok _ =>
        if status then
          match second with
          | .ok _ => [.emitTyping room.rid status, .delay 5000, .emitTyping room.rid false]
          | .error _ =>
            [.emitTyping room.rid status, .delay 5000, .emitTyping room.rid false,
              .log "watchuserTyping"]
        else [.emitTyping room.rid status]

/-! ### Leave and erase (lines 141-178) -/

/-- `goRoomsListAndDelete(rid)` (lines 141-154). -/
def goRoomsListAndDelete (rid : String) (db : Db) : List Effect × Db :=
  ([.popToRoot, .delay 1000, .write [.deleteMessages rid, .deleteSubscriptions rid]],
   { messages := db.messages.filter (fun m => !(m.rid == rid))
     subscriptions := db.subscriptions.filter (fun s => !(s.rid == rid)) })

/-- Notice of line 163. -/
def lastOwnerNotice : String :=
  "You are the last owner. Please set new owner before leaving the room."

/-- Notice of line 165. -/
def leaveFailureNotice : String := "Something happened when leaving room!"

/-- Notice of line 176. -/
def eraseFailureNotice : String := "Something happened when erasing room!"

/-- `handleLeaveRoom({ rid })` (lines 156-168) run without being cancelled.
`sub` is the module variable of line 18: while it is unset `sub.stop()` throws
a `TypeError`, which has no `error` property. `outcome` is the outcome of
`leaveRoom(rid)`; it is rejected with an object or with a value that is none
(`undefined`, `null`). In the latter case the read `e.error` of line 162 throws
inside the `catch`: no notice is shown and the `TypeError` leaves the routine. -/
def handleLeaveRoom (sub : Option Handle) (rid : String)
    (outcome : Except (Option RemoteError) Unit) (db : Db) : List Effect × Db :=
  match sub with
  | none => ([.alert leaveFailureNotice], db)
  | some h =>
    match outcome with
    | .ok _ =>
      let r := goRoomsListAndDelete rid db
      ([.stop h, .leaveRoom rid] ++ r.1, r.2)
    | .error none => ([.stop h, .leaveRoom rid, .uncaught "TypeError"], db)
    | .error (some e) =>
      if e.error == some "error-you-are-last-owner" then
        ([.stop h, .leaveRoom rid, .alert lastOwnerNotice], db)
      else
        ([.stop h, .leaveRoom rid, .alert leaveFailureNotice], db)

/-- `handleEraseRoom({ rid })` (lines 170-178); its `catch` does not read the
rejection value. -/
def handleEraseRoom (sub : Option Handle) (rid : String)
    (outcome : Except (Option RemoteError) Unit) (db : Db) : List Effect × Db :=
  match sub with
  | none => ([.alert eraseFailureNotice], db)
  | some h =>
    match outcome with
    | .ok _ =>
      let r := goRoomsListAndDelete rid db
      ([.stop h, .eraseRoom rid] ++ r.1, r.2)
    | .error _ => ([.stop h, .eraseRoom rid, .alert eraseFailureNotice], db)

/-! ### Room open and close (lines 73-103) under `takeLatest` (line 182)

The middleware semantics used here are those of redux-saga:

* `takeLatest(ROOM.OPEN, watchRoomOpen)` is a task of its own, started with
  the root saga and so before any `watchRoomOpen` task; a dispatched action
  reaches it first. On `ROOM.OPEN` it cancels the task it forked last, if that
  task still runs, and then forks `watchRoomOpen` for the new action.
* A cancelled task is abandoned at the `yield` it is suspended on (the routine
  has no `finally`), and its attached forks are cancelled with it.
* A task whose body has ended keeps running while a fork attached to it runs.
* An effect description takes effect only when it is yielded: the statement
  `cancel(thread);` of line 93 builds a description and drops it.
-/

/-- Where a `watchRoomOpen` task is suspended: on the promise of line 86, on
the race of lines 89-92, or past the end of its body. -/
inductive Phase where
  | subscribing
  | waiting
  | finished
deriving DecidableEq

/-- The `watchRoomOpen` task last forked by `takeLatest`. -/
structure OpenTask where
  room : Room
  phase : Phase
deriving DecidableEq

/-- A `usersTyping` task forked at line 88, with the `SOMEONE_TYPING` actions
dispatched since its start and, once cancelled, the time of the cancellation. -/
structure Watcher where
  task : Nat
  rid : String
  heard : List (Nat × Typing)
  cancelledAt : Option Nat
deriving DecidableEq

/-- The puts of a watcher and of the races it forked: those of `usersTyping`
on what it heard, up to its cancellation. The signals it heard were dispatched
before the cancelling action, so the puts that answer them are kept whatever
their time; a timer that is due when the cancelling action is dispatched wins
over it, as it does over a typing signal in `cancelTyping`. -/
def Watcher.puts (w : Watcher) : List (Nat × Action) :=
  match w.cancelledAt with
  | none => usersTyping w.rid w.heard
  | some c => (usersTyping w.rid w.heard).filter (fun p => decide (p.1 ≤ c))

/-- What is dispatched or settled from outside the room routines. -/
inductive Event where
  | roomOpen (room : Room)
  | roomClose
  | subscribed (h : Handle)
  | subscribeFailed
  | someoneTyping (s : Typing)
deriving DecidableEq

/-- State of the module and of the tasks started for `ROOM.OPEN`. -/
structure World where
  sub : Option Handle
  thread : Option Nat
  lastTask : Option OpenTask
  watcher : Option Watcher
  cancelled : List Watcher
  effects : List Effect
  nextTask : Nat
deriving DecidableEq

/-- Before any room is opened. -/
def World.init : World :=
  { sub := none, thread := none, lastTask := none, watcher := none,
    cancelled := [], effects := [], nextTask := 0 }

/-- `cancel(lastTask)` issued by `takeLatest`: the running task and the
watcher attached to it are cancelled. -/
def cancelLast (t : Nat) (w : World) : World :=
  match w.lastTask with
  | none => w
  | some task =>
    match w.watcher with
    | none =>
      { w with lastTask := none, effects := w.effects ++ [.cancelWatchRoomOpen task.room] }
    | some wt =>
      { w with
        lastTask := none
        watcher := none
        cancelled := w.cancelled ++ [{ wt with cancelledAt := some t }]
        effects := w.effects ++ [.cancelWatchRoomOpen task.room, .cancelUsersTyping wt.task] }

/-- One event at time `t`. -/
def step (w : World) (t : Nat) : Event → World
  | .roomOpen room =>
    -- line 182, then lines 75-86 up to the pending `subscribeRoom`
    let w := cancelLast t w
    { w with
      lastTask := some { room := room, phase := .subscribing }
      effects := w.effects ++
        [.put (.messagesRequest room), .readMessages room.rid, .subscribeRoom room] }
  | .subscribed h =>
    match w.lastTask with
    | some { room := room, phase := .subscribing } =>
      -- lines 86-89: `sub = ...`, `thread = yield fork(usersTyping, ...)`, the race
      { w with
        sub := some h
        thread := some w.nextTask
        lastTask := some { room := room, phase := .waiting }
        watcher := some { task := w.nextTask, rid := room.rid, heard := [], cancelledAt := none }
        effects := w.effects ++ [.forkUsersTyping w.nextTask room.rid]
        nextTask := w.nextTask + 1 }
    | _ => w
  | .subscribeFailed =>
    match w.lastTask with
    | some { room := _, phase := .subscribing } =>
      -- lines 100-101
      { w with lastTask := none, effects := w.effects ++ [.log "watchRoomOpen"] }
    | _ => w
  | .roomClose =>
    match w.lastTask with
    | some { room := room, phase := .waiting } =>
      -- lines 93-95: `cancel(thread);` is not yielded, `sub.stop()`, `put(editCancel())`
      match w.sub with
      | some h =>
        { w with
          lastTask := some { room := room, phase := .finished }
          effects := w.effects ++ [.stop h, .put .editCancel] }
      | none =>
        { w with
          lastTask := some { room := room, phase := .finished }
          effects := w.effects ++ [.log "watchRoomOpen"] }
    | _ => w
  | .someoneTyping s =>
    match w.watcher with
    | some wt => { w with watcher := some { wt with heard := wt.heard ++ [(t, s)] } }
    | none => w

/-- The events of a list, in order, each with its time. -/
def run (w : World) : List (Nat × Event) → World
  | [] => w
  | (t, e) :: rest => run (step w t e) rest

end Rooms

end RocketChat

/-! ## Properties of the settings sync -/

namespace RocketChat

namespace Settings

/-- Keys of a list of entries. -/
theorem objSet_keys_mem {P : Type} (obj : List (String × P)) (kv : String × P) (k : String) :
    k ∈ (objSet obj kv).map Prod.fst ↔ k ∈ obj.map Prod.fst ∨ k = kv.1 := by
  unfold objSet
  split
  · rename_i hany
    simp only [List.any_eq_true, beq_iff_eq] at hany
    obtain ⟨x, hx, hxk⟩ := hany
    simp only [List.map_map, List.mem_map, Function.comp]
    constructor
    · rintro ⟨a, ha, rfl⟩
      by_cases h : a.1 = kv.1
      · simp [h]
      · left; exact ⟨a, ha, by simp [h]⟩
    · rintro (⟨a, ha, rfl⟩ | rfl)
      · exact ⟨a, ha, by by_cases h : a.1 = kv.1 <;> simp [h]⟩
      · exact ⟨x, hx, by simp [hxk]⟩
  · simp [List.map_append]

theorem objSet_mem_same {P : Type} (obj : List (String × P)) (kv e : String × P)
    (he : e ∈ objSet obj kv) (hk : e.1 = kv.1) : e = kv := by
  unfold objSet at he
  split at he
  · simp only [List.mem_map] at he
    obtain ⟨a, _, rfl⟩ := he
    by_cases h : a.1 = kv.1
    · simp [h]
    · simp [h] at hk
  · rename_i hany
    simp only [List.mem_append, List.mem_singleton] at he
    rcases he with he | he
    · exfalso; apply hany
      simp only [List.any_eq_true, beq_iff_eq]
      exact ⟨e, he, hk⟩
    · exact he

theorem objSet_mem_other {P : Type} (obj : List (String × P)) (kv e : String × P)
    (hk : e.1 ≠ kv.1) : e ∈ objSet obj kv ↔ e ∈ obj := by
  unfold objSet
  split
  · simp only [List.mem_map]
    constructor
    · rintro ⟨a, ha, rfl⟩
      by_cases h : a.1 = kv.1
      · simp [h] at hk
      · simpa [h] using ha
    · intro he
      exact ⟨e, he, by simp [hk]⟩
  · simp only [List.mem_append, List.mem_singleton]
    constructor
    · rintro (h | rfl)
      · exact h
      · exact absurd rfl hk
    · exact Or.inl

theorem objSet_nodup {P : Type} (obj : List (String × P)) (kv : String × P)
    (h : (obj.map Prod.fst).Nodup) : ((objSet obj kv).map Prod.fst).Nodup := by
  unfold objSet
  split
  · have : (obj.map (fun x => if x.1 == kv.1 then kv else x)).map Prod.fst = obj.map Prod.fst := by
      rw [List.map_map]
      apply List.map_congr_left
      intro a _
      by_cases h : a.1 = kv.1 <;> simp [h]
    rw [this]; exact h
  · rename_i hany
    rw [List.map_append, List.nodup_append]
    refine ⟨h, by simp, ?_⟩
    simp only [List.map_cons, List.map_nil, List.disjoint_singleton, List.mem_map, not_exists,
      not_and]
    intro a ha hk
    apply hany
    simp only [List.any_eq_true, beq_iff_eq]
    exact ⟨a, ha, hk⟩

theorem lastVal_none_iff {P : Type} (k : String) (F : List (String × P)) :
    lastVal k F = none ↔ k ∉ F.map Prod.fst := by
  induction F with
  | nil => simp [lastVal]
  | cons x xs ih =>
    simp only [lastVal, List.map_cons, List.mem_cons, not_or]
    cases hl : lastVal k xs with
    | some v =>
      simp only [false_iff, not_and, reduceCtorEq]
      intro _ hn
      rw [← ih] at hn
      rw [hl] at hn
      cases hn
    | none =>
      have := ih.mp hl
      by_cases hx : x.1 = k
      · simp [hx]
      · simp [hx, this, Ne.symm hx]

theorem foldl_objSet_keys {P : Type} (F : List (String × P)) (L : List (String × P)) (k : String) :
    k ∈ (F.foldl objSet L).map Prod.fst ↔ k ∈ L.map Prod.fst ∨ k ∈ F.map Prod.fst := by
  induction F generalizing L with
  | nil => simp
  | cons x xs ih =>
    rw [List.foldl_cons, ih, objSet_keys_mem]
    simp only [List.map_cons, List.mem_cons]
    tauto

theorem foldl_objSet_nodup {P : Type} (F : List (String × P)) (L : List (String × P))
    (h : (L.map Prod.fst).Nodup) : ((F.foldl objSet L).map Prod.fst).Nodup := by
  induction F generalizing L with
  | nil => simpa using h
  | cons x xs ih => exact ih _ (objSet_nodup L x h)

theorem foldl_objSet_mem_other {P : Type} (F : List (String × P)) (L : List (String × P))
    (e : String × P) (hk : e.1 ∉ F.map Prod.fst) : e ∈ F.foldl objSet L ↔ e ∈ L := by
  induction F generalizing L with
  | nil => simp
  | cons x xs ih =>
    simp only [List.map_cons, List.mem_cons, not_or] at hk
    rw [List.foldl_cons, ih _ hk.2, objSet_mem_other _ _ _ hk.1]

theorem foldl_objSet_mem_last {P : Type} (F : List (String × P)) (L : List (String × P))
    (e : String × P) (he : e ∈ F.foldl objSet L) (hk : e.1 ∈ F.map Prod.fst) :
    lastVal e.1 F = some e.2 := by
  induction F generalizing L with
  | nil => simp at hk
  | cons x xs ih =>
    rw [List.foldl_cons] at he
    by_cases hxs : e.1 ∈ xs.map Prod.fst
    · simp [lastVal, ih _ he hxs]
    · have hnone := (lastVal_none_iff e.1 xs).mpr hxs
      have hx : e.1 = x.1 := by
        simp only [List.map_cons, List.mem_cons] at hk
        rcases hk with h | h
        · exact h
        · exact absurd h hxs
      have he2 := (foldl_objSet_mem_other xs _ e hxs).mp he
      have := objSet_mem_same L x e he2 hx
      subst this
      simp [lastVal, hnone]

theorem override_cons {P : Type} (x : String × P) (xs : List (String × P)) (e : String × P) :
    override (x :: xs) e = override xs (if e.1 == x.1 then x else e) := by
  unfold override
  by_cases h : e.1 = x.1
  · simp only [h, beq_self_eq_true, if_true, lastVal]
    cases lastVal x.1 xs <;> simp
  · have h2 : ¬ x.1 = e.1 := fun h3 => h h3.symm
    simp only [lastVal, beq_iff_eq, h, h2, if_false]
    cases lastVal e.1 xs <;> simp

theorem foldl_objSet_present {P : Type} (F : List (String × P)) (L : List (String × P))
    (h : ∀ k ∈ F.map Prod.fst, k ∈ L.map Prod.fst) : F.foldl objSet L = L.map (override F) := by
  induction F generalizing L with
  | nil =>
    simp only [List.foldl_nil]
    have : (override ([] : List (String × P))) = id := by
      funext e; simp [override, lastVal]
    rw [this, List.map_id]
  | cons x xs ih =>
    have hx : x.1 ∈ L.map Prod.fst := h _ (by simp)
    have hset : objSet L x = L.map (fun e => if e.1 == x.1 then x else e) := by
      unfold objSet
      rw [if_pos]
      simp only [List.mem_map] at hx
      obtain ⟨a, ha, hak⟩ := hx
      simp only [List.any_eq_true, beq_iff_eq]
      exact ⟨a, ha, hak⟩
    rw [List.foldl_cons, ih]
    · rw [hset, List.map_map]
      apply List.map_congr_left
      intro e _
      simp [override_cons]
    · intro k hk
      rw [objSet_keys_mem]
      left
      exact h k (by simp only [List.map_cons, List.mem_cons]; right; exact hk)

/-- Assigning the same entries a second time changes nothing. -/
theorem foldl_objSet_idem {P : Type} (F : List (String × P)) (L : List (String × P)) :
    F.foldl objSet (F.foldl objSet L) = F.foldl objSet L := by
  rw [foldl_objSet_present F (F.foldl objSet L)]
  · conv_rhs => rw [← List.map_id (F.foldl objSet L)]
    apply List.map_congr_left
    intro e he
    by_cases hk : e.1 ∈ F.map Prod.fst
    · simp [override, foldl_objSet_mem_last F L e he hk]
    · simp [override, (lastVal_none_iff e.1 F).mpr hk]
  · intro k hk
    rw [foldl_objSet_keys]
    exact Or.inr hk

end Settings

end RocketChat

namespace RocketChat

namespace Settings

theorem mapping_create {V : Type} (db : List (SettingRecord V)) (r : SettingRecord V) :
    mapping (create db r) = objSet (mapping db) (r._id, r.value) := by
  have hany : (mapping db).any (fun x => x.1 == r._id) = db.any (fun x => x._id == r._id) := by
    unfold mapping
    induction db with
    | nil => rfl
    | cons a as ih => simp only [List.map_cons, List.any_cons, ih]
  unfold create objSet
  simp only [hany]
  by_cases hc : db.any (fun x => x._id == r._id) = true
  · rw [if_pos hc, if_pos hc]
    unfold mapping
    rw [List.map_map, List.map_map]
    apply List.map_congr_left
    intro a _
    by_cases h : a._id = r._id <;> simp [h]
  · rw [if_neg hc, if_neg hc]
    simp [mapping]

theorem mapping_writeSettings {V : Type} (clock : Nat → Date) (i : Nat) (F : List (Setting V))
    (db : List (SettingRecord V)) :
    mapping (writeSettings clock i F db) = (F.map Setting.entry).foldl objSet (mapping db) := by
  induction F generalizing i db with
  | nil => simp [writeSettings]
  | cons s rest ih =>
    simp only [writeSettings, List.map_cons, List.foldl_cons]
    rw [ih, mapping_create]
    rfl

theorem filter_key_eq_singleton {P : Type} (L : List (String × P)) (e : String × P)
    (hn : (L.map Prod.fst).Nodup) (he : e ∈ L) :
    L.filter (fun x => x.1 == e.1) = [e] := by
  induction L with
  | nil => cases he
  | cons x xs ih =>
    simp only [List.map_cons, List.nodup_cons] at hn
    simp only [List.mem_cons] at he
    rcases he with rfl | he
    · have : xs.filter (fun x => x.1 == e.1) = [] := by
        rw [List.filter_eq_nil_iff]
        intro a ha hk
        apply hn.1
        simp only [beq_iff_eq] at hk
        rw [← hk]
        exact List.mem_map_of_mem _ ha
      simp [List.filter_cons, this]
    · have hne : ¬ x.1 = e.1 := by
        intro h
        apply hn.1
        rw [h]
        exact List.mem_map_of_mem _ he
      simp [List.filter_cons, hne, ih hn.2 he]

theorem lastVal_some_mem {P : Type} (k : String) (F : List (String × P)) (v : P)
    (h : lastVal k F = some v) : ∃ x ∈ F, x.1 = k ∧ x.2 = v := by
  induction F with
  | nil => simp [lastVal] at h
  | cons x xs ih =>
    simp only [lastVal] at h
    cases hl : lastVal k xs with
    | some w =>
      rw [hl] at h
      simp only [Option.some.injEq] at h
      subst h
      obtain ⟨y, hy, hyk⟩ := ih hl
      exact ⟨y, List.mem_cons_of_mem _ hy, hyk⟩
    | none =>
      rw [hl] at h
      by_cases hx : x.1 = k
      · simp only [hx, beq_self_eq_true, if_true, Option.some.injEq] at h
        exact ⟨x, List.mem_cons_self _ _, hx, h⟩
      · simp [hx] at h

end Settings

end RocketChat

namespace RocketChat

namespace Settings

theorem dateLe_total (a b : Option Date) : dateLe a b = true ∨ dateLe b a = true := by
  cases a <;> cases b <;> simp [dateLe]
  exact le_total _ _

theorem dateLe_trans (a b c : Option Date) (hab : dateLe a b = true) (hbc : dateLe b c = true) :
    dateLe a c = true := by
  cases a <;> cases b <;> cases c <;> simp_all [dateLe]
  exact le_trans hab hbc

/-- The first record of the sorted view is a record of the collection whose
`_updatedAt` is not below that of any other record. -/
theorem sortedDesc_head {V : Type} (db : List (SettingRecord V)) (r : SettingRecord V)
    (rest : List (SettingRecord V)) (hs : sortedDesc db = r :: rest) :
    r ∈ db ∧ ∀ x ∈ db, dateLe x._updatedAt r._updatedAt = true := by
  have hperm : (sortedDesc db).Perm db := List.perm_insertionSort _ db
  haveI : IsTotal (SettingRecord V) (fun a b => dateLe b._updatedAt a._updatedAt = true) :=
    ⟨fun a b => dateLe_total _ _⟩
  haveI : IsTrans (SettingRecord V) (fun a b => dateLe b._updatedAt a._updatedAt = true) :=
    ⟨fun a b c hab hbc => dateLe_trans _ _ _ hbc hab⟩
  have hsorted : (sortedDesc db).Sorted (fun a b => dateLe b._updatedAt a._updatedAt = true) :=
    List.sorted_insertionSort _ db
  rw [hs] at hperm hsorted
  refine ⟨hperm.subset (List.mem_cons_self _ _), ?_⟩
  intro x hx
  have hx2 : x ∈ r :: rest := hperm.symm.subset hx
  rcases List.mem_cons.mp hx2 with rfl | hx3
  · rcases dateLe_total x._updatedAt x._updatedAt with h | h <;> exact h
  · exact List.rel_of_sorted_cons hsorted x hx3

theorem getLastUpdate_nil {V : Type} : getLastUpdate ([] : List (SettingRecord V)) = none := rfl

theorem getLastUpdate_greatest {V : Type} (db : List (SettingRecord V)) (T : Date)
    (hmem : ∃ r ∈ db, r._updatedAt = some T)
    (hmax : ∀ r ∈ db, ∀ T2, r._updatedAt = some T2 → T2 ≤ T) :
    getLastUpdate db = some T := by
  obtain ⟨r0, hr0, hT⟩ := hmem
  unfold getLastUpdate
  cases hs : sortedDesc db with
  | nil =>
    have hperm : (sortedDesc db).Perm db := List.perm_insertionSort _ db
    rw [hs] at hperm
    have := hperm.symm.subset hr0
    cases this
  | cons r rest =>
    obtain ⟨hr, hall⟩ := sortedDesc_head db r rest hs
    have h1 := hall r0 hr0
    rw [hT] at h1
    show r._updatedAt = some T
    cases hu : r._updatedAt with
    | none => rw [hu] at h1; simp [dateLe] at h1
    | some T2 =>
      rw [hu] at h1
      simp only [dateLe, decide_eq_true_eq] at h1
      have h2 := hmax r hr T2 hu
      exact congrArg some (le_antisymm h2 h1)

/-- C1: whatever the `settings` collection holds and whatever the remote
answers, the routine issues exactly one remote call, to `public-settings/get`;
the call has no argument when the collection is empty or when the first record
of the sorted view has no `_updatedAt`, and has the single argument `T` when
`T` is the greatest `_updatedAt` among the stored settings. -/
theorem C1_pull_call {Raw V P : Type} (h : Helpers Raw V P) (clock : Nat → Date)
    (response : Except String (PullResult Raw)) (db : List (SettingRecord V))
    (state : List (String × P)) :
    (∃ args, (getSettings h clock response db state).calls =
        [{ method := "public-settings/get", args := args }]) ∧
    (db = [] → (getSettings h clock response db state).calls =
        [{ method := "public-settings/get", args := [] }]) ∧
    (∀ r rest, sortedDesc db = r :: rest → r._updatedAt = none →
      (getSettings h clock response db state).calls =
        [{ method := "public-settings/get", args := [] }]) ∧
    (∀ T, (∃ r ∈ db, r._updatedAt = some T) →
      (∀ r ∈ db, ∀ T2, r._updatedAt = some T2 → T2 ≤ T) →
      (getSettings h clock response db state).calls =
        [{ method := "public-settings/get", args := [T] }]) := by
  have hcalls : (getSettings h clock response db state).calls = [pullCall (getLastUpdate db)] := by
    unfold getSettings
    cases response <;> rfl
  rw [hcalls]
  refine ⟨?_, ?_, ?_, ?_⟩
  · cases getLastUpdate db with
    | none => exact ⟨[], rfl⟩
    | some d => exact ⟨[d], rfl⟩
  · rintro rfl
    rfl
  · intro r rest hs hnone
    have : getLastUpdate db = none := by
      unfold getLastUpdate
      rw [hs]
      exact hnone
    rw [this]
    rfl
  · intro T hmem hmax
    rw [getLastUpdate_greatest db T hmem hmax]
    rfl

/-- C7: for every remote result `D` and every store whose records have
distinct keys, running the merge on `D` twice in succession leaves the same
key-to-value mapping in the store and the same published state as running it
once, and no key is held by two records. With `F` the settings of `D` that pass
`_filterSettings` and `_prepareSettings`: every key of `F` is held by exactly
one record, with the value `F` gives it last; an entry of the store whose key
is not in `F` is kept; and every entry of the resulting store is an entry of
the previous store or a setting of `F`. -/
theorem C7_merge_twice_same_mapping {Raw V P : Type} (h : Helpers Raw V P)
    (clock₁ clock₂ : Nat → Date) (D : PullResult Raw) (db : List (SettingRecord V))
    (state : List (String × P)) (hkey : (db.map (fun r => r._id)).Nodup) :
    mapping (getSettingsTwice h clock₁ clock₂ D db state).store =
      mapping (getSettings h clock₁ (.ok D) db state).store ∧
    (getSettingsTwice h clock₁ clock₂ D db state).published =
      (getSettings h clock₁ (.ok D) db state).published ∧
    ((getSettingsTwice h clock₁ clock₂ D db state).store.map (fun r => r._id)).Nodup ∧
    ((getSettings h clock₁ (.ok D) db state).store.map (fun r => r._id)).Nodup ∧
    (∀ F : List (Setting V),
      F = h._prepareSettings (h._filterSettings
        (match D with
          | .records l => l
          | .envelope update => update)) →
      (∀ s ∈ F, ∃ v,
        lastVal s._id (F.map (fun x => (x._id, x.value))) = some v ∧
        ((getSettingsTwice h clock₁ clock₂ D db state).store.map
          (fun r => (r._id, r.value))).filter (fun e => e.1 == s._id) = [(s._id, v)] ∧
        ((getSettings h clock₁ (.ok D) db state).store.map
          (fun r => (r._id, r.value))).filter (fun e => e.1 == s._id) = [(s._id, v)]) ∧
      (∀ r ∈ db, (∀ s ∈ F, s._id ≠ r._id) →
        (r._id, r.value) ∈ (getSettingsTwice h clock₁ clock₂ D db state).store.map
          (fun x => (x._id, x.value))) ∧
      (∀ e ∈ (getSettingsTwice h clock₁ clock₂ D db state).store.map
          (fun x => (x._id, x.value)),
        (∃ r ∈ db, e = (r._id, r.value)) ∨ (∃ s ∈ F, e = (s._id, s.value)))) := by
  have hkeys : ∀ l : List (SettingRecord V), l.map (fun r => r._id) = (mapping l).map Prod.fst := by
    intro l
    simp [mapping, List.map_map, Function.comp_def]
  have hone : mapping (getSettings h clock₁ (.ok D) db state).store =
      ((filteredSettings h D).map Setting.entry).foldl objSet (mapping db) := by
    simp only [getSettings]
    exact mapping_writeSettings _ _ _ _
  have htwice : mapping (getSettingsTwice h clock₁ clock₂ D db state).store =
      ((filteredSettings h D).map Setting.entry).foldl objSet (mapping db) := by
    simp only [getSettingsTwice, getSettings]
    rw [mapping_writeSettings, mapping_writeSettings, foldl_objSet_idem]
  have hnodup : ((((filteredSettings h D).map Setting.entry).foldl objSet (mapping db)).map
      Prod.fst).Nodup := by
    apply foldl_objSet_nodup
    rw [← hkeys]
    exact hkey
  refine ⟨by rw [htwice, hone], ?_, ?_, ?_, ?_⟩
  · simp only [getSettingsTwice, getSettings, addSettings]
    exact foldl_objSet_idem _ _
  · rw [hkeys, htwice]
    exact hnodup
  · rw [hkeys, hone]
    exact hnodup
  · intro F hF
    have hFeq : F = filteredSettings h D := by
      rw [hF]
      cases D <;> rfl
    subst hFeq
    have hentry : (fun x : Setting V => (x._id, x.value)) = Setting.entry := rfl
    have hmap : ∀ l : List (SettingRecord V),
        l.map (fun r => (r._id, r.value)) = mapping l := fun _ => rfl
    rw [hentry]
    simp only [hmap]
    refine ⟨?_, ?_, ?_⟩
    · intro s hs
      have hk : s._id ∈ ((filteredSettings h D).map Setting.entry).map Prod.fst := by
        simp only [List.map_map, List.mem_map, Function.comp]
        exact ⟨s, hs, rfl⟩
      have hin : s._id ∈ ((((filteredSettings h D).map Setting.entry).foldl objSet
          (mapping db)).map Prod.fst) := by
        rw [foldl_objSet_keys]
        exact Or.inr hk
      obtain ⟨e, he, hek⟩ := List.mem_map.mp hin
      have hlast := foldl_objSet_mem_last _ _ e he (by rw [hek]; exact hk)
      rw [hek] at hlast
      have hsingle := filter_key_eq_singleton _ e hnodup he
      rw [hek] at hsingle
      have hee : e = (s._id, e.2) := by
        rw [← hek]
      refine ⟨e.2, hlast, ?_, ?_⟩
      · rw [htwice, hsingle]
        exact congrArg (fun x => [x]) hee
      · rw [hone, hsingle]
        exact congrArg (fun x => [x]) hee
    · intro r hr hnot
      rw [htwice]
      have hnk : ((r._id, r.value) : String × V).1 ∉
          ((filteredSettings h D).map Setting.entry).map Prod.fst := by
        simp only [List.map_map, List.mem_map, Function.comp, not_exists, not_and]
        intro s hs heq
        exact hnot s hs heq
      rw [foldl_objSet_mem_other _ _ _ hnk]
      exact List.mem_map.mpr ⟨r, hr, rfl⟩
    · intro e he
      rw [htwice] at he
      by_cases hk : e.1 ∈ ((filteredSettings h D).map Setting.entry).map Prod.fst
      · right
        have hlast := foldl_objSet_mem_last _ _ e he hk
        obtain ⟨s, hs, hse⟩ := lastVal_some_mem e.1 _ e.2 hlast
        obtain ⟨s0, hs0, rfl⟩ := List.mem_map.mp hs
        refine ⟨s0, hs0, ?_⟩
        have h1 : e.1 = s0._id := hse.1.symm
        have h2 : e.2 = s0.value := hse.2.symm
        exact Prod.ext h1 h2
      · left
        have := (foldl_objSet_mem_other _ _ e hk).mp he
        obtain ⟨r, hr, hre⟩ := List.mem_map.mp this
        exact ⟨r, hr, hre.symm⟩

end Settings

end RocketChat

namespace RocketChat

namespace Settings

/-- C7 at a concrete store and remote result: the key `a` is sent twice, the
key `b` is not supported by the client, the key `c` is only in the store. One
run and two runs both leave `a` with the value sent last and `c` as it was. -/
theorem C7_merge_witness :
    mapping (getSettingsTwice sampleHelpers (fun _ => 5) (fun _ => 9)
        (.records [("a", true, 1), ("b", false, 2), ("a", true, 3)])
        [{ _id := "a", value := 0, _updatedAt := none },
         { _id := "c", value := 7, _updatedAt := some 2 }] []).store =
      mapping (getSettings sampleHelpers (fun _ => 5)
        (.ok (.records [("a", true, 1), ("b", false, 2), ("a", true, 3)]))
        [{ _id := "a", value := 0, _updatedAt := none },
         { _id := "c", value := 7, _updatedAt := some 2 }] []).store ∧
    (getSettings sampleHelpers (fun _ => 5)
        (.ok (.records [("a", true, 1), ("b", false, 2), ("a", true, 3)]))
        [{ _id := "a", value := 0, _updatedAt := none },
         { _id := "c", value := 7, _updatedAt := some 2 }] []).store =
      [{ _id := "a", value := 3, _updatedAt := some 5 },
       { _id := "c", value := 7, _updatedAt := some 2 }] ∧
    (getSettingsTwice sampleHelpers (fun _ => 5) (fun _ => 9)
        (.records [("a", true, 1), ("b", false, 2), ("a", true, 3)])
        [{ _id := "a", value := 0, _updatedAt := none },
         { _id := "c", value := 7, _updatedAt := some 2 }] []).published =
      [("a", 3)] :=
  ⟨(C7_merge_twice_same_mapping sampleHelpers (fun _ => 5) (fun _ => 9)
      (.records [("a", true, 1), ("b", false, 2), ("a", true, 3)])
      [{ _id := "a", value := 0, _updatedAt := none },
       { _id := "c", value := 7, _updatedAt := some 2 }] [] (by decide)).1,
    by decide, by decide⟩

end Settings

end RocketChat

/-! ## Properties of the room sagas -/

namespace RocketChat

namespace Rooms

theorem cancelTyping_action (u : String) (start : Nat) (sigs : List (Nat × Typing)) :
    (cancelTyping u start sigs).2 = Action.removeUserTyping u := by
  induction sigs generalizing start with
  | nil => rfl
  | cons p rest ih =>
    obtain ⟨t, s⟩ := p
    unfold cancelTyping
    split
    · rfl
    · split
      · rfl
      · exact ih t

theorem cancelTyping_ge (u : String) (T : Nat) (start : Nat) (sigs : List (Nat × Typing))
    (hT : T ≤ start + 5000) (hchain : List.Chain (· ≤ ·) start (sigs.map Prod.fst))
    (hquiet : ∀ p ∈ sigs, p.1 < T → ¬ (p.2.username = u ∧ p.2.typing = false)) :
    T ≤ (cancelTyping u start sigs).1 := by
  induction sigs generalizing start with
  | nil => exact hT
  | cons p rest ih =>
    obtain ⟨t, s⟩ := p
    simp only [List.map_cons, List.chain_cons] at hchain
    unfold cancelTyping
    split
    · exact hT
    · split
      · rename_i hmatch
        simp only [Bool.and_eq_true, beq_iff_eq, Bool.not_eq_true'] at hmatch
        by_contra hlt
        exact hquiet (t, s) (List.mem_cons_self _ _) (Nat.lt_of_not_le hlt) hmatch
      · apply ih t
        · omega
        · exact hchain.2
        · intro p hp
          exact hquiet p (List.mem_cons_of_mem _ hp)

/-- C2 on the code: `u` announces typing in room `R` at time 0 and no `false`
for `u` is ever dispatched. With no other signal the race started for `u` puts
the removal at 5000. A signal of another user of the same room at 2000 makes
the race restart its 5000 ms delay: the removal is put at 7000 and nothing puts
a removal of `u` at 5000. With a signal every 4000 ms the removal recedes
further, to 13000 after signals at 4000 and 8000. -/
theorem C2_other_signal_restarts_timer :
    cancelTyping "u" 0 [] = (5000, Action.removeUserTyping "u") ∧
    cancelTyping "u" 0 [(2000, { _rid := "R", username := "v", typing := true })] =
      (7000, Action.removeUserTyping "u") ∧
    usersTyping "R"
      [(0, { _rid := "R", username := "u", typing := true }),
       (2000, { _rid := "R", username := "v", typing := true })] =
      [(0, Action.addUserTyping "u"), (7000, Action.removeUserTyping "u"),
       (2000, Action.addUserTyping "v"), (7000, Action.removeUserTyping "v")] ∧
    (5000, Action.removeUserTyping "u") ∉ usersTyping "R"
      [(0, { _rid := "R", username := "u", typing := true }),
       (2000, { _rid := "R", username := "v", typing := true })] ∧
    cancelTyping "u" 0
      [(4000, { _rid := "R", username := "v", typing := true }),
       (8000, { _rid := "R", username := "v", typing := true })] =
      (13000, Action.removeUserTyping "u") := by
  decide

/-- C10 at its failing inputs: with the watcher started for room `R1` and a
race pending for `u`, a `false` signal for `u` in room `R2` makes the race put
the removal of `u` at once, and a signal of another user in room `R2` moves the
removal from 5000 to 6000. -/
theorem C10_other_room_signal_reaches_race :
    usersTyping "R1" [(0, { _rid := "R1", username := "u", typing := true })] =
      [(0, Action.addUserTyping "u"), (5000, Action.removeUserTyping "u")] ∧
    usersTyping "R1"
      [(0, { _rid := "R1", username := "u", typing := true }),
       (1000, { _rid := "R2", username := "u", typing := false })] =
      [(0, Action.addUserTyping "u"), (1000, Action.removeUserTyping "u")] ∧
    usersTyping "R1"
      [(0, { _rid := "R1", username := "u", typing := true }),
       (1000, { _rid := "R2", username := "v", typing := true })] =
      [(0, Action.addUserTyping "u"), (6000, Action.removeUserTyping "u")] := by
  decide

end Rooms

end RocketChat

namespace RocketChat

namespace Rooms

/-- C3: when `leaveRoom(R)` succeeds the routine performs, after stopping the
subscription and the remote call, the navigation to the root list, the wait
of 1000 ms and one write transaction, in this order; no write precedes the
end of the wait; afterwards `messages` and `subscriptions` are their previous
contents without the records whose `rid` is `R`. -/
theorem C3_leave_success (h : Handle) (R : String) (db : Db) :
    (handleLeaveRoom (some h) R (.ok ()) db).1 =
      [.stop h, .leaveRoom R, .popToRoot, .delay 1000,
        .write [.deleteMessages R, .deleteSubscriptions R]] ∧
    ((handleLeaveRoom (some h) R (.ok ()) db).1.filter Effect.isWrite).length = 1 ∧
    (∀ e ∈ (handleLeaveRoom (some h) R (.ok ()) db).1.takeWhile
        (fun e => decide (e ≠ Effect.delay 1000)), e.isWrite = false) ∧
    (handleLeaveRoom (some h) R (.ok ()) db).2.messages =
      db.messages.filter (fun m => decide (m.rid ≠ R)) ∧
    (handleLeaveRoom (some h) R (.ok ()) db).2.subscriptions =
      db.subscriptions.filter (fun s => decide (s.rid ≠ R)) ∧
    (∀ m, m ∈ (handleLeaveRoom (some h) R (.ok ()) db).2.messages ↔
      m ∈ db.messages ∧ m.rid ≠ R) ∧
    (∀ s, s ∈ (handleLeaveRoom (some h) R (.ok ()) db).2.subscriptions ↔
      s ∈ db.subscriptions ∧ s.rid ≠ R) := by
  have hm : (fun m : Message => !(m.rid == R)) = (fun m => decide (m.rid ≠ R)) := by
    funext m; by_cases hx : m.rid = R <;> simp [hx]
  have hs : (fun s : Subscription => !(s.rid == R)) = (fun s => decide (s.rid ≠ R)) := by
    funext s; by_cases hx : s.rid = R <;> simp [hx]
  refine ⟨rfl, ?_, ?_, ?_, ?_, ?_, ?_⟩
  · simp [handleLeaveRoom, goRoomsListAndDelete, Effect.isWrite]
  · simp [handleLeaveRoom, goRoomsListAndDelete, Effect.isWrite, List.takeWhile]
  · simp only [handleLeaveRoom, goRoomsListAndDelete, hm]
  · simp only [handleLeaveRoom, goRoomsListAndDelete, hs]
  · intro m
    simp [handleLeaveRoom, goRoomsListAndDelete]
  · intro s
    simp [handleLeaveRoom, goRoomsListAndDelete]

/-- C4 (amended): when `leaveRoom(R)` fails with an error value `e` that is an
object, exactly one notice is shown; it is the last-owner notice if and only if
`e.error` is `error-you-are-last-owner`, and the generic leave-failure notice
otherwise. Whatever the rejection value, object or not, the routine does not
navigate, performs no write and leaves both collections unchanged. -/
theorem C4_leave_failure (h : Handle) (R : String) (e : RemoteError)
    (v : Option RemoteError) (db : Db) :
    (∃ notice, (handleLeaveRoom (some h) R (.error (some e)) db).1.filter Effect.isAlert =
        [.alert notice] ∧
      (notice = lastOwnerNotice ↔ e.error = some "error-you-are-last-owner") ∧
      (notice = leaveFailureNotice ↔ e.error ≠ some "error-you-are-last-owner")) ∧
    Effect.popToRoot ∉ (handleLeaveRoom (some h) R (.error v) db).1 ∧
    (∀ x ∈ (handleLeaveRoom (some h) R (.error v) db).1, x.isWrite = false) ∧
    (handleLeaveRoom (some h) R (.error v) db).2 = db := by
  have hne : lastOwnerNotice ≠ leaveFailureNotice := by decide
  have hrest : Effect.popToRoot ∉ (handleLeaveRoom (some h) R (.error v) db).1 ∧
      (∀ x ∈ (handleLeaveRoom (some h) R (.error v) db).1, x.isWrite = false) ∧
      (handleLeaveRoom (some h) R (.error v) db).2 = db := by
    cases v with
    | none => simp [handleLeaveRoom, Effect.isWrite]
    | some e2 =>
      by_cases he2 : e2.error = some "error-you-are-last-owner" <;>
        simp [handleLeaveRoom, he2, Effect.isWrite]
  refine ⟨?_, hrest⟩
  by_cases he : e.error = some "error-you-are-last-owner"
  · refine ⟨lastOwnerNotice, ?_, ?_, ?_⟩ <;>
      simp [handleLeaveRoom, he, Effect.isAlert, hne]
  · refine ⟨leaveFailureNotice, ?_, ?_, ?_⟩ <;>
      simp [handleLeaveRoom, he, Effect.isAlert, hne.symm]

/-- C4 fails as stated: when `leaveRoom("R1")` is rejected with `undefined`,
the read of `e.error` throws inside the `catch`; no notice is shown and the
`TypeError` leaves the routine. -/
theorem C4_counterexample :
    (handleLeaveRoom (some 1) "R1" (.error none) { messages := [], subscriptions := [] }).1 =
      [.stop 1, .leaveRoom "R1", .uncaught "TypeError"] ∧
    (handleLeaveRoom (some 1) "R1" (.error none)
      { messages := [], subscriptions := [] }).1.filter Effect.isAlert = [] := by
  decide

/-- C9: with a current room of id `R`, the routine performs one write
transaction that creates or updates `m` in `messages`, followed by
`readMessages(R)`, if and only if `m.rid` is `R`; otherwise it performs
nothing and the store is unchanged. -/
theorem C9_message_received (m : Message) (R : String) (db : Db) :
    ((handleMessageReceived (some { rid := R }) m db).1 =
        [.write [.createMessage m], .readMessages R] ↔ m.rid = R) ∧
    (m.rid = R →
      (handleMessageReceived (some { rid := R }) m db).2 = createMessage db m ∧
      m ∈ (handleMessageReceived (some { rid := R }) m db).2.messages ∧
      (handleMessageReceived (some { rid := R }) m db).2.subscriptions = db.subscriptions ∧
      (∀ x ∈ db.messages, x._id ≠ m._id →
        x ∈ (handleMessageReceived (some { rid := R }) m db).2.messages)) ∧
    (m.rid ≠ R →
      (handleMessageReceived (some { rid := R }) m db).1 = [] ∧
      (handleMessageReceived (some { rid := R }) m db).2 = db) := by
  by_cases hr : m.rid = R
  · refine ⟨?_, ?_, ?_⟩
    · simp [handleMessageReceived, hr]
    · intro _
      refine ⟨by simp [handleMessageReceived, hr], ?_, by simp [handleMessageReceived, hr, createMessage], ?_⟩
      · simp only [handleMessageReceived, hr, beq_self_eq_true, if_true, createMessage]
        split
        · rename_i hany
          simp only [List.any_eq_true, beq_iff_eq] at hany
          obtain ⟨x, hx, hxk⟩ := hany
          exact List.mem_map.mpr ⟨x, hx, by simp [hxk]⟩
        · simp
      · intro x hx hne
        simp only [handleMessageReceived, hr, beq_self_eq_true, if_true, createMessage]
        split
        · exact List.mem_map.mpr ⟨x, hx, by simp [hne]⟩
        · simp [hx]
    · intro hcontra
      exact absurd hr hcontra
  · refine ⟨?_, ?_, ?_⟩
    · simp [handleMessageReceived, hr]
    · intro hcontra
      exact absurd hcontra hr
    · intro _
      simp [handleMessageReceived, hr]

/-- C6 (amended): with an authenticated state and a current room of id `R`,
`status = true` and a successful `emitTyping(R, true)` give exactly
`emitTyping(R, true)`, a wait of 5000 ms and `emitTyping(R, false)`;
`status = false` gives exactly `emitTyping(R, false)`, with no wait and no
second emit; without a current room nothing is emitted. Log entries of failed
calls are left aside. -/
theorem C6_self_typing_amended (R : String) (loginSuccess : Bool)
    (first second : Except RemoteError Unit) :
    (first = .ok () →
      (watchuserTyping true true loginSuccess (some { rid := R }) first second).filter
          (fun e => !e.isLog) =
        [.emitTyping R true, .delay 5000, .emitTyping R false]) ∧
    (watchuserTyping false true loginSuccess (some { rid := R }) first second).filter
        (fun e => !e.isLog) = [.emitTyping R false] ∧
    (∀ status isAuthenticated,
      watchuserTyping status isAuthenticated loginSuccess none first second = []) := by
  refine ⟨?_, ?_, ?_⟩
  · rintro rfl
    cases second <;> simp [watchuserTyping, Effect.isLog]
  · cases first <;> simp [watchuserTyping, Effect.isLog]
  · intro status isAuthenticated
    unfold watchuserTyping
    split <;> rfl

/-- C6 fails as stated: in an authenticated state with current room `R`, when
the call `emitTyping(R, true)` is rejected the routine logs the error and
performs neither the wait nor the second emit. -/
theorem C6_counterexample :
    watchuserTyping true true false (some { rid := "R" }) (.error { error := none }) (.ok ()) =
      [.emitTyping "R" true, .log "watchuserTyping"] ∧
    (watchuserTyping true true false (some { rid := "R" }) (.error { error := none })
        (.ok ())).filter (fun e => !e.isLog) ≠
      [.emitTyping "R" true, .delay 5000, .emitTyping "R" false] := by
  decide

/-- C5 on the code: room `A` is opened and subscribed (handle `hA`), then room
`B` is opened without a close and subscribed (handle `hB`). `takeLatest`
cancels the task of `A` at its race, with its typing watcher, before the task
of `B` starts; `stop()` is never called, on the handle of `A` or on any other,
and `sub` then holds the handle of `B`. -/
theorem C5_open_twice_never_stops_first (A B : Room) (hA hB : Handle) (t0 t1 t2 t3 : Nat) :
    (run World.init
        [(t0, .roomOpen A), (t1, .subscribed hA), (t2, .roomOpen B),
         (t3, .subscribed hB)]).effects =
      [.put (.messagesRequest A), .readMessages A.rid, .subscribeRoom A,
       .forkUsersTyping 0 A.rid,
       .cancelWatchRoomOpen A, .cancelUsersTyping 0,
       .put (.messagesRequest B), .readMessages B.rid, .subscribeRoom B,
       .forkUsersTyping 1 B.rid] ∧
    (∀ h, Effect.stop h ∉ (run World.init
        [(t0, .roomOpen A), (t1, .subscribed hA), (t2, .roomOpen B),
         (t3, .subscribed hB)]).effects) ∧
    (run World.init
        [(t0, .roomOpen A), (t1, .subscribed hA), (t2, .roomOpen B),
         (t3, .subscribed hB)]).sub = some hB := by
  have heff : (run World.init
        [(t0, .roomOpen A), (t1, .subscribed hA), (t2, .roomOpen B),
         (t3, .subscribed hB)]).effects =
      [.put (.messagesRequest A), .readMessages A.rid, .subscribeRoom A,
       .forkUsersTyping 0 A.rid,
       .cancelWatchRoomOpen A, .cancelUsersTyping 0,
       .put (.messagesRequest B), .readMessages B.rid, .subscribeRoom B,
       .forkUsersTyping 1 B.rid] := rfl
  refine ⟨heff, ?_, rfl⟩
  intro h
  rw [heff]
  simp

/-- C8 on the code: room `R` is opened and subscribed (handle `h`), a close is
dispatched and then `u` announces typing in `R` at time `t3`. After the wait
the routine stops the handle and puts the draft-edit cancel, and no
cancellation takes place: the watcher is still running, and it puts the
addition of `u` at `t3` and the removal at `t3 + 5000`. -/
theorem C8_close_leaves_watcher_running (R : Room) (h : Handle) (u : String)
    (t0 t1 t2 t3 : Nat) :
    (run World.init [(t0, .roomOpen R), (t1, .subscribed h), (t2, .roomClose)]).effects =
      (run World.init [(t0, .roomOpen R), (t1, .subscribed h)]).effects ++
        [.stop h, .put .editCancel] ∧
    (run World.init [(t0, .roomOpen R), (t1, .subscribed h), (t2, .roomClose)]).cancelled = [] ∧
    (run World.init
        [(t0, .roomOpen R), (t1, .subscribed h), (t2, .roomClose),
         (t3, .someoneTyping { _rid := R.rid, username := u, typing := true })]).watcher =
      some { task := 0, rid := R.rid,
             heard := [(t3, { _rid := R.rid, username := u, typing := true })],
             cancelledAt := none } ∧
    ((run World.init
        [(t0, .roomOpen R), (t1, .subscribed h), (t2, .roomClose),
         (t3, .someoneTyping { _rid := R.rid, username := u, typing := true })]).watcher.map
      Watcher.puts) =
      some [(t3, Action.addUserTyping u), (t3 + 5000, Action.removeUserTyping u)] := by
  refine ⟨rfl, rfl, rfl, ?_⟩
  have hw : (run World.init
        [(t0, .roomOpen R), (t1, .subscribed h), (t2, .roomClose),
         (t3, .someoneTyping { _rid := R.rid, username := u, typing := true })]).watcher =
      some { task := 0, rid := R.rid,
             heard := [(t3, { _rid := R.rid, username := u, typing := true })],
             cancelledAt := none } := rfl
  rw [hw]
  simp [Watcher.puts, usersTyping, cancelTyping]

end Rooms

end RocketChat
